import Mathlib

/-!
# Verification of the trace-writer ingestion pipeline

Shallow embedding of `src/app/trace_writer.py` (the fetch-and-checkpoint
core of the coupling-index-monitor trace writer) together with proofs of
the specification's claims about it.

Modelling conventions:
* Timestamps are `Int` (Python's unbounded integers, microseconds).
* A span is modelled by its `startTime`; all other backend fields are
  opaque and irrelevant to the core, so they are omitted.
* The tracing backend is modelled, per configured service, by the
  sequence of responses it produces for the successive queries of the
  pagination loop: each response is either a page of traces or a
  transport error (`requests.exceptions.RequestException`).
* The filesystem state touched by the core is the offset file (absent,
  present-but-unparsable, or a parsed JSON object) and the set of batch
  files already written.
* Python's `max()` / `min()` raise `ValueError` on an empty sequence and
  `trace["spans"][0]` raises `IndexError` on an empty span list; the
  claims only exercise traces with at least one span, and the embedding
  returns a junk default (`0`) in those out-of-scope cases.
* Python's stable `list.sort(key=...)` is embedded as Mathlib's
  `List.insertionSort`, which is a stable ascending sort and therefore
  produces exactly the list `list.sort` produces.
-/

namespace TraceWriter

/-- A span of a trace: only its integer `startTime` (microseconds) matters
to the core; the remaining backend fields are opaque. -/
structure Span where
  startTime : Int
deriving Repr, DecidableEq, Inhabited

/-- A trace as returned by the backend: a `traceID` and its spans. -/
structure Trace where
  traceID : String
  spans : List Span
deriving Repr, DecidableEq, Inhabited

/-- `TRACE_LIMIT = 2000`, the maximum page size per Jaeger request. -/
def TRACE_LIMIT : Nat := 2000

/-- Maximum of a list of integers; `0` is a junk value for the empty list,
where Python's `max()` would raise `ValueError`. -/
def listMaxD : List Int → Int
  | [] => 0
  | x :: xs => xs.foldl max x

/-- Minimum of a list of integers; `0` is a junk value for the empty list,
where Python's `min()` would raise `ValueError`. -/
def listMinD : List Int → Int
  | [] => 0
  | x :: xs => xs.foldl min x

/-- The list of span start times of one trace
(`span["startTime"] for span in trace["spans"]`). -/
def spanStarts (t : Trace) : List Int :=
  t.spans.map (·.startTime)

/-- All span start times of a list of traces
(`span["startTime"] for trace in traces for span in trace["spans"]`). -/
def allSpanStarts (traces : List Trace) : List Int :=
  (traces.map spanStarts).flatten

/-- The sort key used by `write_traces`:
`trace["spans"][0]["startTime"]` (the FIRST span's start time). -/
def sortKey (t : Trace) : Int :=
  (t.spans.headD default).startTime

/-- The comparison under which `write_traces` sorts
(ascending in `sortKey`). -/
def traceR (a b : Trace) : Prop :=
  sortKey a ≤ sortKey b

instance : DecidableRel traceR := fun _ _ => by
  unfold traceR; infer_instance

instance : IsTotal Trace traceR := ⟨fun a b => Int.le_total (sortKey a) (sortKey b)⟩

instance : IsTrans Trace traceR := ⟨fun _ _ _ => Int.le_trans⟩

/-- One backend response to one paginated query: either a page of traces
(the `data` array of the JSON body, possibly empty) or a transport error
(`requests.exceptions.RequestException`). -/
inductive PageResult where
  | err
  | page (traces : List Trace)
deriving Repr, DecidableEq

/-- The traces carried by a response (empty for an error). -/
def pageTraces : PageResult → List Trace
  | .err => []
  | .page p => p

/-- Result of the per-service pagination loop of `get_traces`:
the traces accumulated for this service, the number of queries issued,
whether a transport error aborted the fetch, and the final value of the
`current_start_time` loop variable. -/
structure SvcResult where
  acc : List Trace
  queries : Nat
  errored : Bool
  finalStart : Int
deriving Repr, DecidableEq

/-- The `while True` pagination loop of `get_traces` (lines 39-71), for a
single service, driven by the backend's successive responses:
issue a query; on transport error return with `errored := true`
(the Python code then returns `all_traces` from `get_traces`);
on an empty page stop; otherwise append the page, advance
`current_start_time` to the page's maximum span start time plus one, and
stop if the page was shorter than `TRACE_LIMIT`, else loop.
An exhausted response list models a backend that never answers the next
query; no claim exercises that case. -/
def paginate_service : List PageResult → Int → SvcResult
  | [], ws => ⟨[], 0, false, ws⟩
  | .err :: _, ws => ⟨[], 1, true, ws⟩
  | .page traces :: rest, ws =>
    if traces.isEmpty then ⟨[], 1, false, ws⟩
    else
      let last_start_time := listMaxD (allSpanStarts traces)
      let ws2 := last_start_time + 1
      if traces.length < TRACE_LIMIT then ⟨traces, 1, false, ws2⟩
      else
        let r := paginate_service rest ws2
        ⟨traces ++ r.acc, r.queries + 1, r.errored, r.finalStart⟩

/-- The service loop of `get_traces` (lines 36-73): services are processed
in order, each restarting from `start_time`; a transport error returns the
global accumulator immediately (line 52), normal completion of all
services returns it at the end (line 74). Both return sites return a
list, wrapped in `some`; `none` would model Python's implicit `None`
from falling off the end of the function, which never happens. -/
def get_traces_go : List (List PageResult) → Int → List Trace → Option (List Trace)
  | [], _, acc => some acc
  | rs :: rest, st, acc =>
    let r := paginate_service rs st
    if r.errored then some (acc ++ r.acc)
    else get_traces_go rest st (acc ++ r.acc)

/-- `get_traces(start_time, end_time)` (lines 28-74). The backend is the
list, per configured service, of its successive responses. The `end_time`
query parameter does not influence the modelled responses and is omitted. -/
def get_traces (svcs : List (List PageResult)) (start_time : Int) : Option (List Trace) :=
  get_traces_go svcs start_time []

/-- The parsed content of `offset.json`: a JSON object, i.e. an
association list from (string-encoded) integer timestamps to trace IDs,
in insertion order, with distinct keys. -/
abbrev Cursor := List (Int × String)

/-- The keys of the cursor (`offset_data.keys()`, after `int()`). -/
def cursorKeys (c : Cursor) : List Int :=
  c.map (·.1)

/-- `max(map(int, offset_data.keys()))`; junk `0` on an empty cursor,
which the callers guard against. -/
def cursorMax (c : Cursor) : Int :=
  listMaxD (cursorKeys c)

/-- `offset_data[str(k)] = v`: overwrite the entry if the key is present,
otherwise append it (Python dicts preserve insertion order). -/
def cursorSet (c : Cursor) (k : Int) (v : String) : Cursor :=
  if c.any (fun p => p.1 == k) then
    c.map (fun p => if p.1 == k then (k, v) else p)
  else c ++ [(k, v)]

/-- State of the offset file on disk. -/
inductive OffsetFile where
  | absent
  | corrupt
  | valid (c : Cursor)
deriving Repr, DecidableEq

/-- The filesystem state touched by the core: the offset file and the
batch files written so far (name and content, in creation order). -/
structure FS where
  offsetF : OffsetFile
  batches : List (String × List Trace)
deriving Repr, DecidableEq

/-- The sorted batch: `traces.sort(key=lambda trace: trace["spans"][0]["startTime"])`
(line 88). Python's sort is stable and ascending, which determines its
output uniquely; `insertionSort` is such a sort. -/
def batchSorted (traces : List Trace) : List Trace :=
  traces.insertionSort traceR

/-- `first_start_time = min(span["startTime"] for span in traces[0]["spans"])`
(line 91), on the sorted batch. -/
def batchFirst (traces : List Trace) : Int :=
  listMinD (spanStarts ((batchSorted traces).headD default))

/-- `last_start_time = max(span["startTime"] for span in traces[-1]["spans"])`
(line 92), on the sorted batch. -/
def batchLast (traces : List Trace) : Int :=
  listMaxD (spanStarts ((batchSorted traces).getLastD default))

/-- `last_trace_id = traces[-1]["traceID"]` (lines 93-94). -/
def batchLastTraceID (traces : List Trace) : String :=
  ((batchSorted traces).getLastD default).traceID

/-- The batch filename `f"{first_start_time}_{last_start_time}.json"`
(line 97). -/
def batchFileName (traces : List Trace) : String :=
  toString (batchFirst traces) ++ "_" ++ toString (batchLast traces) ++ ".json"

/-- The cursor `write_traces` starts its merge from (lines 104-111): the
parsed offset file if it exists and parses, `{}` if it is absent, and —
because `json.JSONDecodeError` is caught there — `{}` if it is corrupt. -/
def loadedCursor (fs : FS) : Cursor :=
  match fs.offsetF with
  | .valid c => c
  | _ => []

/-- `write_traces(traces)` (lines 77-118): no-op on an empty list;
otherwise sort, derive the filename from the first sorted trace's minimum
and the last sorted trace's maximum span start time, write the batch file,
and merge `{str(last_start_time): last_trace_id}` into the offset file. -/
def write_traces (fs : FS) (traces : List Trace) : FS :=
  if traces.isEmpty then fs
  else
    let sorted := batchSorted traces
    let offset_data := loadedCursor fs
    let offset_data2 := cursorSet offset_data (batchLast traces) (batchLastTraceID traces)
    { offsetF := .valid offset_data2
      batches := fs.batches ++ [(batchFileName traces, sorted)] }

/-- The only exception `run_trace_writer` itself can raise in the model:
`json.JSONDecodeError` escaping the uncaught `json.load` on line 139. -/
inductive RunError where
  | jsonDecode
deriving Repr, DecidableEq

/-- The 15-minute default lookback, in microseconds (line 148). -/
def LOOKBACK_US : Int := 15 * 60 * 1000000

/-- Lines 136-141 of `run_trace_writer`: read `offset.json` if it exists
(`json.load` raises on a corrupt file — this read is NOT wrapped in a
try/except) and take the maximum integer key if the object is non-empty. -/
def load_last_start_time (fs : FS) : Except RunError (Option Int) :=
  match fs.offsetF with
  | .absent => .ok none
  | .corrupt => .error .jsonDecode
  | .valid c => .ok (if c.isEmpty then none else some (cursorMax c))

/-- Lines 136-149: the computed `start_time` of a run. Note the Python
truthiness test `if last_start_time:` — an integer `0` is falsy, so a
recorded timestamp of `0` falls back to the 15-minute lookback exactly
like an absent one. -/
def compute_start_time (fs : FS) (end_time : Int) : Except RunError Int :=
  match load_last_start_time fs with
  | .error e => .error e
  | .ok none => .ok (end_time - LOOKBACK_US)
  | .ok (some l) => if l = 0 then .ok (end_time - LOOKBACK_US) else .ok (l + 1)

/-- `run_trace_writer()` (lines 125-155): compute the window start, fetch,
and write; `get_traces` never returns `None`, so the `else` branch on
line 155 only logs in unreachable code and the model returns the state
unchanged there. -/
def run_trace_writer (fs : FS) (end_time : Int) (svcs : List (List PageResult)) :
    Except RunError FS :=
  match compute_start_time fs end_time with
  | .error e => .error e
  | .ok start_time =>
    match get_traces svcs start_time with
    | some traces => .ok (write_traces fs traces)
    | none => .ok fs

/-- The ordering the spec's words describe for the batch (§3, claim C4):
ascending by each trace's MINIMUM span start timestamp (its effective
start time). Stated from the spec for comparison with the source's
`traceR`, which uses the first span instead. -/
def specR (a b : Trace) : Prop :=
  listMinD (spanStarts a) ≤ listMinD (spanStarts b)

instance : DecidableRel specR := fun _ _ => by
  unfold specR; infer_instance

/-- The batch order the spec's words describe: a stable ascending sort by
effective start time. -/
def specSortByMinStart (traces : List Trace) : List Trace :=
  traces.insertionSort specR

/-- Concrete traces used in the concrete evaluations below. -/
def exA : Trace := ⟨"A", [⟨0⟩, ⟨100⟩]⟩

def exB : Trace := ⟨"B", [⟨50⟩]⟩

def exX : Trace := ⟨"X", [⟨100⟩, ⟨0⟩]⟩

def exY : Trace := ⟨"Y", [⟨50⟩]⟩

def exT : Trace := ⟨"t", [⟨10⟩]⟩

def exS1 : Trace := ⟨"s1", [⟨5⟩]⟩

def exS2 : Trace := ⟨"s2", [⟨7⟩]⟩

/-! ## Helper lemmas -/

theorem le_foldl_max (a : Int) (l : List Int) : a ≤ l.foldl max a := by
  induction l generalizing a with
  | nil => exact le_refl a
  | cons x xs ih =>
    exact le_trans (le_max_left a x) (ih (max a x))

theorem mem_le_foldl_max {x : Int} {l : List Int} (a : Int) (h : x ∈ l) :
    x ≤ l.foldl max a := by
  induction l generalizing a with
  | nil => cases h
  | cons y ys ih =>
    rcases List.mem_cons.mp h with h | h
    · subst h
      exact le_trans (le_max_right a x) (le_foldl_max (max a x) ys)
    · exact ih (max a y) h

theorem le_listMaxD {x : Int} {l : List Int} (h : x ∈ l) : x ≤ listMaxD l := by
  cases l with
  | nil => cases h
  | cons y ys =>
    rcases List.mem_cons.mp h with h | h
    · subst h; exact le_foldl_max x ys
    · exact mem_le_foldl_max y h

theorem foldl_min_le (a : Int) (l : List Int) : l.foldl min a ≤ a := by
  induction l generalizing a with
  | nil => exact le_refl a
  | cons x xs ih =>
    exact le_trans (ih (min a x)) (min_le_left a x)

theorem foldl_min_le_mem {x : Int} {l : List Int} (a : Int) (h : x ∈ l) :
    l.foldl min a ≤ x := by
  induction l generalizing a with
  | nil => cases h
  | cons y ys ih =>
    rcases List.mem_cons.mp h with h | h
    · subst h
      exact le_trans (foldl_min_le (min a x) ys) (min_le_right a x)
    · exact ih (min a y) h

theorem listMinD_le {x : Int} {l : List Int} (h : x ∈ l) : listMinD l ≤ x := by
  cases l with
  | nil => cases h
  | cons y ys =>
    rcases List.mem_cons.mp h with h | h
    · subst h; exact foldl_min_le x ys
    · exact foldl_min_le_mem y h

theorem listMaxD_append_singleton {l : List Int} (k : Int) (h : l ≠ []) :
    listMaxD (l ++ [k]) = max (listMaxD l) k := by
  cases l with
  | nil => exact absurd rfl h
  | cons x xs =>
    show (xs ++ [k]).foldl max x = max (xs.foldl max x) k
    rw [List.foldl_append]
    rfl

/-- `getLastD` of a non-empty list is a member of it. -/
theorem getLastD_mem {α : Type} (l : List α) (d : α) (h : l ≠ []) :
    l.getLastD d ∈ l := by
  cases l with
  | nil => exact absurd rfl h
  | cons x xs =>
    rw [List.getLastD_cons]
    exact List.getLastD_mem_cons xs x

/-- In a `traceR`-sorted non-empty list, the first element is related to
the last. -/
theorem sorted_headD_traceR_getLastD {l : List Trace}
    (hs : l.Sorted traceR) (h : l ≠ []) :
    traceR (l.headD default) (l.getLastD default) := by
  cases l with
  | nil => exact absurd rfl h
  | cons x xs =>
    have hmem : (x :: xs).getLastD default ∈ x :: xs :=
      getLastD_mem _ _ (by simp)
    rcases List.mem_cons.mp hmem with he | he
    · rw [List.headD_cons, he]
      exact le_refl (sortKey x)
    · exact List.rel_of_sorted_cons hs _ he

/-- The first span's start time of a trace lies between the trace's
minimum and itself. -/
theorem listMinD_spanStarts_le_sortKey {t : Trace} (h : t.spans ≠ []) :
    listMinD (spanStarts t) ≤ sortKey t := by
  cases hs : t.spans with
  | nil => exact absurd hs h
  | cons s ss =>
    have hmem : sortKey t ∈ spanStarts t := by
      simp only [sortKey, spanStarts, hs, List.headD_cons]
      exact List.mem_map_of_mem _ (List.mem_cons_self s ss)
    exact listMinD_le hmem

theorem sortKey_le_listMaxD_spanStarts {t : Trace} (h : t.spans ≠ []) :
    sortKey t ≤ listMaxD (spanStarts t) := by
  cases hs : t.spans with
  | nil => exact absurd hs h
  | cons s ss =>
    have hmem : sortKey t ∈ spanStarts t := by
      simp only [sortKey, spanStarts, hs, List.headD_cons]
      exact List.mem_map_of_mem _ (List.mem_cons_self s ss)
    exact le_listMaxD hmem

/-- `cursorSet` either rewrites an existing key in place or appends a new
one; the maximum key of the result is the new key joined with the old
maximum. -/
theorem cursorMax_cursorSet (c : Cursor) (k : Int) (v : String) :
    cursorMax (cursorSet c k v) =
      if c = [] then k else max k (cursorMax c) := by
  unfold cursorSet
  by_cases hmem : c.any (fun p => p.1 == k)
  · have hc : c ≠ [] := by
      rcases List.any_eq_true.mp hmem with ⟨p, hp, _⟩
      intro h
      rw [h] at hp
      cases hp
    rw [if_pos hmem, if_neg hc]
    have hkeys : cursorKeys (c.map (fun p => if p.1 == k then (k, v) else p)) =
        cursorKeys c := by
      unfold cursorKeys
      rw [List.map_map]
      apply List.map_congr_left
      intro p _
      by_cases hpk : p.1 = k
      · simp [Function.comp, hpk]
      · simp [Function.comp, hpk]
    have hk_mem : k ∈ cursorKeys c := by
      rcases List.any_eq_true.mp hmem with ⟨p, hp, hpk⟩
      have : p.1 = k := by simpa using hpk
      exact this ▸ List.mem_map_of_mem _ hp
    have hk_le : k ≤ listMaxD (cursorKeys c) := le_listMaxD hk_mem
    unfold cursorMax
    rw [hkeys]
    exact (max_eq_right hk_le).symm
  · rw [if_neg hmem]
    by_cases hc : c = []
    · subst hc; simp [cursorMax, cursorKeys, listMaxD]
    · rw [if_neg hc]
      have hkeys : cursorKeys (c ++ [(k, v)]) = cursorKeys c ++ [k] := by
        simp [cursorKeys]
      have hne : cursorKeys c ≠ [] := by
        intro h
        exact hc (List.map_eq_nil_iff.mp h)
      unfold cursorMax
      rw [hkeys, listMaxD_append_singleton k hne, max_comm]

/-- `headD` of a non-empty list is a member of it. -/
theorem headD_mem {α : Type} (l : List α) (d : α) (h : l ≠ []) :
    l.headD d ∈ l := by
  cases l with
  | nil => exact absurd rfl h
  | cons x xs => exact List.mem_cons_self x xs

theorem batchSorted_perm (traces : List Trace) :
    List.Perm (batchSorted traces) traces :=
  List.perm_insertionSort traceR traces

theorem batchSorted_sorted (traces : List Trace) :
    (batchSorted traces).Sorted traceR :=
  List.sorted_insertionSort traceR traces

theorem batchSorted_ne_nil {traces : List Trace} (h : traces ≠ []) :
    batchSorted traces ≠ [] := by
  intro hb
  have hp : List.Perm (batchSorted traces) traces := batchSorted_perm traces
  rw [hb] at hp
  exact h hp.nil_eq.symm

/-- A list all of whose elements share the same sort key is
`traceR`-pairwise. -/
theorem pairwise_of_const_key (k : Int) :
    ∀ (l : List Trace), (∀ t ∈ l, sortKey t = k) → l.Pairwise traceR
  | [], _ => List.Pairwise.nil
  | t :: ts, h => by
    refine List.Pairwise.cons (fun u hu => ?_)
      (pairwise_of_const_key k ts fun u hu => h u (List.mem_cons_of_mem t hu))
    show sortKey t ≤ sortKey u
    rw [h t (List.mem_cons_self t ts), h u (List.mem_cons_of_mem t hu)]

/-- Stability of the batch sort: the traces sharing any given sort key
appear in the sorted batch exactly in their original fetch order. -/
theorem batchSorted_filter_key (traces : List Trace) (k : Int) :
    (batchSorted traces).filter (fun t => sortKey t == k) =
      traces.filter (fun t => sortKey t == k) := by
  have hpw : (traces.filter (fun t => sortKey t == k)).Pairwise traceR := by
    refine pairwise_of_const_key k _ fun t ht => ?_
    have := List.of_mem_filter ht
    simpa using this
  have h2 : List.Sublist (traces.filter (fun t => sortKey t == k)) (batchSorted traces) :=
    List.sublist_insertionSort hpw (List.filter_sublist traces)
  have h3 : List.Sublist (traces.filter (fun t => sortKey t == k))
      ((batchSorted traces).filter (fun t => sortKey t == k)) := by
    have hidem : (traces.filter (fun t => sortKey t == k)).filter
        (fun t => sortKey t == k) = traces.filter (fun t => sortKey t == k) := by
      apply List.filter_eq_self.mpr
      intro a ha
      exact (List.mem_filter.mp ha).2
    rw [← hidem]
    exact h2.filter _
  have h4 : List.Perm ((batchSorted traces).filter (fun t => sortKey t == k))
      (traces.filter (fun t => sortKey t == k)) :=
    (batchSorted_perm traces).filter _
  exact (h3.eq_of_length h4.length_eq.symm).symm

/-- Unfolding of `write_traces` on a non-empty batch. -/
theorem write_traces_of_ne_nil (fs : FS) {traces : List Trace} (hne : traces ≠ []) :
    write_traces fs traces =
      { offsetF := .valid (cursorSet (loadedCursor fs) (batchLast traces) (batchLastTraceID traces))
        batches := fs.batches ++ [(batchFileName traces, batchSorted traces)] } := by
  unfold write_traces
  rw [if_neg (by simpa using hne)]

theorem write_traces_offsetF_not_corrupt {fs : FS} (h : fs.offsetF ≠ .corrupt)
    (traces : List Trace) : (write_traces fs traces).offsetF ≠ .corrupt := by
  by_cases hne : traces = []
  · subst hne; exact h
  · rw [write_traces_of_ne_nil fs hne]
    intro hc
    cases hc

/-- The run, expressed through its two phases. -/
theorem run_eq_of_ok {fs : FS} {e st : Int} {svcs : List (List PageResult)}
    {traces : List Trace} (hst : compute_start_time fs e = .ok st)
    (hget : get_traces svcs st = some traces) :
    run_trace_writer fs e svcs = .ok (write_traces fs traces) := by
  simp [run_trace_writer, hst, hget]

/-- A non-corrupt offset file never makes `compute_start_time` fail. -/
theorem compute_ok {fs : FS} (h : fs.offsetF ≠ .corrupt) (e : Int) :
    ∃ st, compute_start_time fs e = .ok st := by
  cases hfs : fs.offsetF with
  | corrupt => exact absurd hfs h
  | absent =>
    exact ⟨e - LOOKBACK_US, by simp [compute_start_time, load_last_start_time, hfs]⟩
  | valid c =>
    by_cases hc : c.isEmpty
    · exact ⟨e - LOOKBACK_US,
        by simp [compute_start_time, load_last_start_time, hfs, hc]⟩
    · by_cases h0 : cursorMax c = 0
      · exact ⟨e - LOOKBACK_US,
          by simp [compute_start_time, load_last_start_time, hfs, hc, h0]⟩
      · exact ⟨cursorMax c + 1,
          by simp [compute_start_time, load_last_start_time, hfs, hc, h0]⟩

/-- Every return site of `get_traces` returns a list. -/
theorem get_traces_go_isSome (svcs : List (List PageResult)) (st : Int)
    (acc : List Trace) : ∃ l, get_traces_go svcs st acc = some l := by
  induction svcs generalizing acc with
  | nil => exact ⟨acc, rfl⟩
  | cons rs rest ih =>
    unfold get_traces_go
    by_cases he : (paginate_service rs st).errored
    · exact ⟨_, by rw [if_pos he]⟩
    · obtain ⟨l, hl⟩ := ih (acc ++ (paginate_service rs st).acc)
      exact ⟨l, by rw [if_neg he]; exact hl⟩

/-- A backend that answers every query with an empty page makes the
service loop accumulate nothing. -/
theorem get_traces_go_all_empty {svcs : List (List PageResult)} {st : Int}
    (he : ∀ rs ∈ svcs, ∀ r ∈ rs, r = PageResult.page []) (acc : List Trace) :
    get_traces_go svcs st acc = some acc := by
  induction svcs generalizing acc with
  | nil => rfl
  | cons rs rest ih =>
    have hstep : get_traces_go (rs :: rest) st acc = get_traces_go rest st acc := by
      cases rs with
      | nil => simp [get_traces_go, paginate_service]
      | cons r0 rtl =>
        have h0 : r0 = PageResult.page [] :=
          he _ (List.mem_cons_self _ _) r0 (List.mem_cons_self r0 rtl)
        subst h0
        simp [get_traces_go, paginate_service]
    rw [hstep]
    exact ih (fun rs2 h2 => he rs2 (List.mem_cons_of_mem rs h2)) acc

/-- A run against a backend with no new data is a no-op, provided the
offset file parses. -/
theorem run_empty_backend {fs : FS} (hc : fs.offsetF ≠ .corrupt)
    {svcs : List (List PageResult)}
    (he : ∀ rs ∈ svcs, ∀ r ∈ rs, r = PageResult.page []) (e : Int) :
    run_trace_writer fs e svcs = .ok fs := by
  obtain ⟨st, hst⟩ := compute_ok hc e
  have hget : get_traces svcs st = some [] := get_traces_go_all_empty he []
  rw [run_eq_of_ok hst hget]
  rfl

/-- A successful run leaves a parseable (or absent) offset file behind. -/
theorem run_ok_not_corrupt {fs fs2 : FS} {e : Int} {svcs : List (List PageResult)}
    (h : run_trace_writer fs e svcs = .ok fs2) : fs2.offsetF ≠ .corrupt := by
  by_cases hc : fs.offsetF = .corrupt
  · have : run_trace_writer fs e svcs = .error .jsonDecode := by
      obtain ⟨o, b⟩ := fs
      simp only at hc
      subst hc
      rfl
    rw [this] at h
    cases h
  · obtain ⟨st, hst⟩ := compute_ok hc e
    obtain ⟨l, hl⟩ := get_traces_go_isSome svcs st []
    have hrun : run_trace_writer fs e svcs = .ok (write_traces fs l) :=
      run_eq_of_ok hst hl
    rw [hrun] at h
    cases h
    exact write_traces_offsetF_not_corrupt hc l

/-- Splitting the service loop at the first transport error: the services
before it contribute their full accumulations, the erroring one its
partial accumulation, and the services after it are never queried. -/
theorem get_traces_go_error_split {A : List (List PageResult)} {st : Int}
    (hA : ∀ rs ∈ A, (paginate_service rs st).errored = false)
    (s : List PageResult) (B : List (List PageResult))
    (hs : (paginate_service s st).errored = true) (acc : List Trace) :
    get_traces_go (A ++ s :: B) st acc =
      some (acc ++ (A.map (fun rs => (paginate_service rs st).acc)).flatten ++
        (paginate_service s st).acc) := by
  induction A generalizing acc with
  | nil =>
    simp [get_traces_go, hs]
  | cons rs A2 ih =>
    have h0 : (paginate_service rs st).errored = false :=
      hA rs (List.mem_cons_self rs A2)
    have hstep : get_traces_go ((rs :: A2) ++ s :: B) st acc =
        get_traces_go (A2 ++ s :: B) st (acc ++ (paginate_service rs st).acc) := by
      simp [get_traces_go, h0]
    rw [hstep, ih (fun rs2 h2 => hA rs2 (List.mem_cons_of_mem rs h2))]
    simp

/-! ## Claims -/

/-- C1, counterexample: a successful run that writes a non-empty batch
(every trace with a span) after which the persisted cursor's maximum key
is 50, while the maximum span start time over ALL spans of ALL traces of
the written batch is 100: the cursor key comes from the spans of the LAST
trace in sort order only (line 92), not from the whole batch. -/
theorem c1_counterexample :
    run_trace_writer ⟨.absent, []⟩ 0 [[.page [exA, exB]]] =
      .ok ⟨.valid [(50, "B")], [("0_50.json", [exA, exB])]⟩
    ∧ cursorMax [((50 : Int), "B")] = 50
    ∧ listMaxD (allSpanStarts [exA, exB]) = 100
    ∧ (50 : Int) ≠ 100 :=
  ⟨rfl, rfl, rfl, by decide⟩

/-- C1, amended: after a successful pipeline run that writes a batch
(non-empty fetched traces, every trace with at least one span), the
persisted cursor's maximum key equals the maximum span start time of the
LAST trace of the batch in sort order (sorted by first-span start time),
joined with the previous cursor's maximum key when the previous cursor
is non-empty. -/
theorem c1_amended (fs fs2 : FS) (e st : Int) (svcs : List (List PageResult))
    (traces : List Trace)
    (hrun : run_trace_writer fs e svcs = .ok fs2)
    (hst : compute_start_time fs e = .ok st)
    (hget : get_traces svcs st = some traces)
    (hne : traces ≠ [])
    (hsp : ∀ t ∈ traces, t.spans ≠ []) :
    fs2.offsetF = .valid
      (cursorSet (loadedCursor fs) (batchLast traces) (batchLastTraceID traces))
    ∧ cursorMax (cursorSet (loadedCursor fs) (batchLast traces) (batchLastTraceID traces)) =
        if loadedCursor fs = [] then batchLast traces
        else max (batchLast traces) (cursorMax (loadedCursor fs)) := by
  have hw : fs2 = write_traces fs traces := by
    rw [run_eq_of_ok hst hget] at hrun
    injection hrun with h
    exact h.symm
  subst hw
  constructor
  · rw [write_traces_of_ne_nil fs hne]
  · exact cursorMax_cursorSet (loadedCursor fs) (batchLast traces) (batchLastTraceID traces)

/-- C1, witness: a concrete resumed run (prior cursor key 7) writing the
two-trace batch, whose cursor afterwards holds max(50, 7) = 50. -/
theorem c1_witness :
    (FS.mk (.valid [(7, "z"), (50, "B")])
        [("0_50.json", [exA, exB])]).offsetF = .valid
      (cursorSet (loadedCursor ⟨.valid [(7, "z")], []⟩) (batchLast [exA, exB])
        (batchLastTraceID [exA, exB]))
    ∧ cursorMax (cursorSet (loadedCursor ⟨.valid [(7, "z")], []⟩) (batchLast [exA, exB])
        (batchLastTraceID [exA, exB])) =
        if loadedCursor ⟨.valid [(7, "z")], []⟩ = [] then batchLast [exA, exB]
        else max (batchLast [exA, exB]) (cursorMax (loadedCursor ⟨.valid [(7, "z")], []⟩)) :=
  c1_amended ⟨.valid [(7, "z")], []⟩ _ 0 8 [[.page [exA, exB]]] [exA, exB]
    rfl rfl rfl (by decide) (by decide)

/-- C2, counterexample: with the offset file holding `{"0": "abc"}` and
`end_time = 1000000000`, the computed start time is the 15-minute
lookback value 100000000, not 0 + 1 = 1: the Python truthiness test
`if last_start_time:` treats the integer 0 like an absent cursor. -/
theorem c2_counterexample :
    compute_start_time ⟨.valid [(0, "abc")], []⟩ 1000000000 = .ok 100000000
    ∧ cursorMax [((0 : Int), "abc")] + 1 = 1
    ∧ (100000000 : Int) ≠ 1 :=
  ⟨rfl, rfl, by decide⟩

/-- C2, amended: whenever the offset file exists and parses to a
non-empty cursor whose maximum key is NONZERO, the computed start time is
that maximum key plus one. -/
theorem c2_amended (fs : FS) (c : Cursor) (e : Int)
    (hfs : fs.offsetF = .valid c) (hne : c ≠ []) (h0 : cursorMax c ≠ 0) :
    compute_start_time fs e = .ok (cursorMax c + 1) := by
  have hie : c.isEmpty = false := by
    cases c with
    | nil => exact absurd rfl hne
    | cons p ps => rfl
  simp [compute_start_time, load_last_start_time, hfs, hie, h0]

/-- C2, witness: the spec's own scenario — cursor `{"2000": "abc"}`
yields start time 2001. -/
theorem c2_witness :
    compute_start_time ⟨.valid [(2000, "abc")], []⟩ 5 = .ok 2001 :=
  c2_amended ⟨.valid [(2000, "abc")], []⟩ [(2000, "abc")] 5 rfl (by decide) (by decide)

/-- C3: the code at the failing input. A corrupt offset file makes
`run_trace_writer` raise `json.JSONDecodeError` out of the uncaught
`json.load` of line 139, so a corrupt offset file IS fatal to the run at
load time — while the merge path inside `write_traces` (lines 105-111)
does catch it and proceeds from an empty cursor, as the spec describes. -/
theorem c3_code_bug :
    run_trace_writer ⟨.corrupt, []⟩ 0 [[.page []]] = .error .jsonDecode
    ∧ (write_traces ⟨.corrupt, []⟩ [exT]).offsetF = .valid [(10, "t")] :=
  ⟨rfl, rfl⟩

/-- C4, counterexample: the batch `[exX, exY]` with `exX` carrying spans
(100, 0) — minimum 0, first span 100 — and `exY` carrying span 50. The
code orders it `[exY, exX]` (by FIRST-span start time, line 88), while
sorting by minimum span start time orders it `[exX, exY]`. -/
theorem c4_counterexample :
    batchSorted [exX, exY] = [exY, exX]
    ∧ specSortByMinStart [exX, exY] = [exX, exY]
    ∧ (write_traces ⟨.absent, []⟩ [exX, exY]).batches = [("50_100.json", [exY, exX])]
    ∧ ([exY, exX] : List Trace) ≠ [exX, exY] :=
  ⟨rfl, rfl, rfl, by decide⟩

/-- C4, amended: before serialization the batch is stably sorted
ascending by each trace's FIRST span's start time
(`trace["spans"][0]["startTime"]`), not by its minimum span start time:
the serialized list is a permutation of the input, sorted under that key,
and traces with equal keys keep their original fetch order. -/
theorem c4_amended (fs : FS) (traces : List Trace) (hne : traces ≠ []) :
    (write_traces fs traces).batches =
      fs.batches ++ [(batchFileName traces, batchSorted traces)]
    ∧ List.Perm (batchSorted traces) traces
    ∧ (batchSorted traces).Sorted traceR
    ∧ ∀ k : Int, (batchSorted traces).filter (fun t => sortKey t == k) =
        traces.filter (fun t => sortKey t == k) := by
  refine ⟨?_, batchSorted_perm traces, batchSorted_sorted traces,
    batchSorted_filter_key traces⟩
  rw [write_traces_of_ne_nil fs hne]

/-- C4, witness: the amended statement at the concrete batch
`[exX, exY]`. -/
theorem c4_witness :
    (write_traces ⟨.absent, []⟩ [exX, exY]).batches =
      ([] : List (String × List Trace)) ++ [(batchFileName [exX, exY], batchSorted [exX, exY])]
    ∧ List.Perm (batchSorted [exX, exY]) [exX, exY]
    ∧ (batchSorted [exX, exY]).Sorted traceR
    ∧ ∀ k : Int, (batchSorted [exX, exY]).filter (fun t => sortKey t == k) =
        [exX, exY].filter (fun t => sortKey t == k) :=
  c4_amended ⟨.absent, []⟩ [exX, exY] (by decide)

/-- C5, counterexample: writing the one-trace batch `[exT]` (span 10)
over a prior cursor `{"20": "x"}` leaves the cursor's maximum key at 20,
not at `last = 10`: the merge keeps older, larger keys. -/
theorem c5_counterexample :
    (write_traces ⟨.valid [(20, "x")], []⟩ [exT]).offsetF =
      .valid [(20, "x"), (10, "t")]
    ∧ batchLast [exT] = 10
    ∧ cursorMax [((20 : Int), "x"), (10, "t")] = 20
    ∧ (20 : Int) ≠ 10 :=
  ⟨rfl, rfl, rfl, by decide⟩

/-- C5, amended: for every non-empty batch (every trace with at least one
span), the filename components satisfy `first ≤ last`, the batch file is
written under that name, and the cursor afterwards maps `last` to the
last sorted trace's ID; its maximum key equals `last` when the prior
cursor was empty or absent, and `max(last, prior maximum)` otherwise. -/
theorem c5_amended (fs : FS) (traces : List Trace) (hne : traces ≠ [])
    (hsp : ∀ t ∈ traces, t.spans ≠ []) :
    batchFirst traces ≤ batchLast traces
    ∧ (write_traces fs traces).batches =
        fs.batches ++ [(batchFileName traces, batchSorted traces)]
    ∧ (write_traces fs traces).offsetF = .valid
        (cursorSet (loadedCursor fs) (batchLast traces) (batchLastTraceID traces))
    ∧ cursorMax (cursorSet (loadedCursor fs) (batchLast traces) (batchLastTraceID traces)) =
        if loadedCursor fs = [] then batchLast traces
        else max (batchLast traces) (cursorMax (loadedCursor fs)) := by
  have hsne : batchSorted traces ≠ [] := batchSorted_ne_nil hne
  have hhd : (batchSorted traces).headD default ∈ traces :=
    (batchSorted_perm traces).mem_iff.mp (headD_mem _ _ hsne)
  have hlt : (batchSorted traces).getLastD default ∈ traces :=
    (batchSorted_perm traces).mem_iff.mp (getLastD_mem _ _ hsne)
  refine ⟨?_, ?_, ?_, ?_⟩
  · have h1 : listMinD (spanStarts ((batchSorted traces).headD default)) ≤
        sortKey ((batchSorted traces).headD default) :=
      listMinD_spanStarts_le_sortKey (hsp _ hhd)
    have h2 : traceR ((batchSorted traces).headD default)
        ((batchSorted traces).getLastD default) :=
      sorted_headD_traceR_getLastD (batchSorted_sorted traces) hsne
    have h3 : sortKey ((batchSorted traces).getLastD default) ≤
        listMaxD (spanStarts ((batchSorted traces).getLastD default)) :=
      sortKey_le_listMaxD_spanStarts (hsp _ hlt)
    exact le_trans h1 (le_trans h2 h3)
  · rw [write_traces_of_ne_nil fs hne]
  · rw [write_traces_of_ne_nil fs hne]
  · exact cursorMax_cursorSet (loadedCursor fs) (batchLast traces) (batchLastTraceID traces)

/-- C5, witness: the amended statement at the batch `[exA, exB]` over an
absent prior cursor. -/
theorem c5_witness :
    batchFirst [exA, exB] ≤ batchLast [exA, exB]
    ∧ (write_traces ⟨.absent, []⟩ [exA, exB]).batches =
        ([] : List (String × List Trace)) ++ [(batchFileName [exA, exB], batchSorted [exA, exB])]
    ∧ (write_traces ⟨.absent, []⟩ [exA, exB]).offsetF = .valid
        (cursorSet (loadedCursor ⟨.absent, []⟩) (batchLast [exA, exB])
          (batchLastTraceID [exA, exB]))
    ∧ cursorMax (cursorSet (loadedCursor ⟨.absent, []⟩) (batchLast [exA, exB])
          (batchLastTraceID [exA, exB])) =
        if loadedCursor ⟨.absent, []⟩ = [] then batchLast [exA, exB]
        else max (batchLast [exA, exB]) (cursorMax (loadedCursor ⟨.absent, []⟩)) :=
  c5_amended ⟨.absent, []⟩ [exA, exB] (by decide) (by decide)

/-- C6: when the services before some service `s` all complete without
transport error and `s` hits one, `get_traces` returns (it does not
raise) exactly the traces accumulated from all successful responses so
far — the full accumulations of the earlier services plus the partial
accumulation of `s` — the remaining services contribute nothing, and a
run started with that window passes exactly this list to the writer. -/
theorem c6_fail_soft (A B : List (List PageResult)) (s : List PageResult) (st : Int)
    (hA : ∀ rs ∈ A, (paginate_service rs st).errored = false)
    (hs : (paginate_service s st).errored = true) :
    get_traces (A ++ s :: B) st =
      some ((A.map (fun rs => (paginate_service rs st).acc)).flatten ++
        (paginate_service s st).acc)
    ∧ ∀ (fs : FS) (e : Int), compute_start_time fs e = .ok st →
        run_trace_writer fs e (A ++ s :: B) =
          .ok (write_traces fs ((A.map (fun rs => (paginate_service rs st).acc)).flatten ++
            (paginate_service s st).acc)) := by
  have hget : get_traces (A ++ s :: B) st =
      some ((A.map (fun rs => (paginate_service rs st).acc)).flatten ++
        (paginate_service s st).acc) := by
    have := get_traces_go_error_split hA s B hs []
    simpa [get_traces] using this
  exact ⟨hget, fun fs e hst => run_eq_of_ok hst hget⟩

/-- C6, witness: service 1 returns one trace, service 2 dies with a
transport error, service 3 is configured after it; the fetch returns
exactly service 1's trace and the run writes it. -/
theorem c6_witness :
    get_traces [[.page [exS1]], [.err], [.page [exS2]]] 0 = some [exS1]
    ∧ run_trace_writer ⟨.absent, []⟩ LOOKBACK_US
        [[.page [exS1]], [.err], [.page [exS2]]] =
      .ok (write_traces ⟨.absent, []⟩ [exS1]) := by
  have h := c6_fail_soft [[.page [exS1]]] [[.page [exS2]]] [.err] 0
    (by decide) (by decide)
  exact ⟨h.1, h.2 ⟨.absent, []⟩ LOOKBACK_US rfl⟩

/-- C7: resume is idempotent — after any successful run, a second run
against a backend that answers every query with zero traces succeeds,
creates no batch file and leaves the persisted cursor (and all filesystem
state) unchanged. -/
theorem c7_idempotent_resume (fs0 fs1 : FS) (e1 e2 : Int)
    (svcs1 svcs2 : List (List PageResult))
    (h1 : run_trace_writer fs0 e1 svcs1 = .ok fs1)
    (h2 : ∀ rs ∈ svcs2, ∀ r ∈ rs, r = PageResult.page []) :
    run_trace_writer fs1 e2 svcs2 = .ok fs1 :=
  run_empty_backend (run_ok_not_corrupt h1) h2 e2

/-- C7, witness: a first run writes `exT`; the second run, with the
backend now empty, returns the state of the first run unchanged. -/
theorem c7_witness :
    run_trace_writer ⟨.valid [(10, "t")], [("10_10.json", [exT])]⟩ 7 [[.page []]] =
      .ok ⟨.valid [(10, "t")], [("10_10.json", [exT])]⟩ :=
  c7_idempotent_resume ⟨.absent, []⟩ _ 0 7 [[.page [exT]]] [[.page []]]
    rfl (by decide)

/-- C8: if, for one service, the backend returns some full pages and then
a page with fewer than `TRACE_LIMIT` traces (possibly zero), pagination
for that service stops right there: exactly one query per received page
is issued and none after the short page, no transport error is reported,
and on a non-empty short page its traces are still appended and
`current_start_time` is advanced to the page's maximum span start time
plus one before the loop exits. -/
theorem c8_short_page_stops (pre : List PageResult) (short : List Trace)
    (rest : List PageResult) (ws : Int)
    (hfull : ∀ r ∈ pre, ∃ p, r = PageResult.page p ∧ TRACE_LIMIT ≤ p.length)
    (hshort : short.length < TRACE_LIMIT) :
    (paginate_service (pre ++ PageResult.page short :: rest) ws).queries = pre.length + 1
    ∧ (paginate_service (pre ++ PageResult.page short :: rest) ws).errored = false
    ∧ (short = [] →
        (paginate_service (pre ++ PageResult.page short :: rest) ws).acc =
          (pre.map pageTraces).flatten)
    ∧ (short ≠ [] →
        (paginate_service (pre ++ PageResult.page short :: rest) ws).acc =
          (pre.map pageTraces).flatten ++ short
        ∧ (paginate_service (pre ++ PageResult.page short :: rest) ws).finalStart =
            listMaxD (allSpanStarts short) + 1) := by
  induction pre generalizing ws with
  | nil =>
    cases hsh : short with
    | nil =>
      refine ⟨rfl, rfl, fun _ => rfl, fun hne => absurd rfl hne⟩
    | cons x xs =>
      have hemp : (short.isEmpty : Bool) = false := by rw [hsh]; rfl
      rw [← hsh]
      constructor
      · simp [paginate_service, hemp, hshort]
      constructor
      · simp [paginate_service, hemp, hshort]
      constructor
      · intro h0
        rw [h0] at hsh
        cases hsh
      · intro _
        constructor
        · simp [paginate_service, hemp, hshort]
        · simp [paginate_service, hemp, hshort]
  | cons r0 pre2 ih =>
    obtain ⟨p, hr0, hp⟩ := hfull r0 (List.mem_cons_self r0 pre2)
    subst hr0
    have hpne : (p.isEmpty : Bool) = false := by
      cases p with
      | nil => simp [TRACE_LIMIT] at hp
      | cons q qs => rfl
    have hplt : ¬ p.length < TRACE_LIMIT := not_lt.mpr hp
    have hard : paginate_service ((PageResult.page p :: pre2) ++ PageResult.page short :: rest) ws =
        let r := paginate_service (pre2 ++ PageResult.page short :: rest)
          (listMaxD (allSpanStarts p) + 1)
        ⟨p ++ r.acc, r.queries + 1, r.errored, r.finalStart⟩ := by
      simp [paginate_service, hpne, hplt]
    obtain ⟨ihq, ihe, ihn, ihs⟩ :=
      ih (listMaxD (allSpanStarts p) + 1) (fun r hr => hfull r (List.mem_cons_of_mem _ hr))
    rw [hard]
    refine ⟨?_, ?_, ?_, ?_⟩
    · simpa using ihq
    · simpa using ihe
    · intro h0
      simp [pageTraces, ihn h0]
    · intro hne
      obtain ⟨ha, hf⟩ := ihs hne
      constructor
      · simp [pageTraces, ha]
      · simpa using hf

/-- C8, witness: a single short page of one trace followed by further
configured responses: one query, no error, the trace kept, the window
advanced to 5 + 1 = 6. -/
theorem c8_witness :
    (paginate_service [PageResult.page [exS1], PageResult.err] 0).queries = 0 + 1
    ∧ (paginate_service [PageResult.page [exS1], PageResult.err] 0).errored = false
    ∧ (paginate_service [PageResult.page [exS1], PageResult.err] 0).acc =
        (([] : List PageResult).map pageTraces).flatten ++ [exS1]
    ∧ (paginate_service [PageResult.page [exS1], PageResult.err] 0).finalStart =
        listMaxD (allSpanStarts [exS1]) + 1 := by
  have h := c8_short_page_stops [] [exS1] [PageResult.err] 0
    (by intro r hr; cases hr) (by decide)
  obtain ⟨hq, he, _, hs⟩ := h
  obtain ⟨ha, hf⟩ := hs (by decide)
  exact ⟨hq, he, ha, hf⟩

/-- C9: writing an empty trace collection is a guaranteed no-op — no
batch file is created and the offset file is untouched — and a run whose
backend returns zero traces for the whole window (given a parseable or
absent offset file) leaves the filesystem state exactly as it was. -/
theorem c9_empty_write_noop (fs : FS) :
    write_traces fs [] = fs
    ∧ ∀ (e : Int) (svcs : List (List PageResult)), fs.offsetF ≠ .corrupt →
        (∀ rs ∈ svcs, ∀ r ∈ rs, r = PageResult.page []) →
        run_trace_writer fs e svcs = .ok fs :=
  ⟨rfl, fun e svcs hc he => run_empty_backend hc he e⟩

/-- C9, witness: the no-op at a concrete state with one prior batch and
cursor. -/
theorem c9_witness :
    write_traces ⟨.valid [(5, "a")], [("5_5.json", [exS1])]⟩ [] =
      ⟨.valid [(5, "a")], [("5_5.json", [exS1])]⟩
    ∧ run_trace_writer ⟨.valid [(5, "a")], [("5_5.json", [exS1])]⟩ 0 [[.page []]] =
      .ok ⟨.valid [(5, "a")], [("5_5.json", [exS1])]⟩ :=
  ⟨(c9_empty_write_noop ⟨.valid [(5, "a")], [("5_5.json", [exS1])]⟩).1,
    (c9_empty_write_noop ⟨.valid [(5, "a")], [("5_5.json", [exS1])]⟩).2 0 [[.page []]]
      (by decide) (by decide)⟩

/-- C10: `get_traces` returns a list at every return site — never
`None` — for every backend behaviour including transport failures, so
the `traces is not None` check in `run_trace_writer` cannot take its
error branch: the only way a run fails is the corrupt-offset load. -/
theorem c10_fetch_total (svcs : List (List PageResult)) (st : Int) :
    (get_traces svcs st).isSome = true
    ∧ ∀ (fs : FS) (e : Int) (er : RunError),
        run_trace_writer fs e svcs = .error er → fs.offsetF = .corrupt := by
  constructor
  · obtain ⟨l, hl⟩ := get_traces_go_isSome svcs st []
    simp [get_traces, hl]
  · intro fs e er hrun
    by_contra hfs
    obtain ⟨st2, hst⟩ := compute_ok hfs e
    obtain ⟨l, hl⟩ := get_traces_go_isSome svcs st2 []
    have hok : run_trace_writer fs e svcs = .ok (write_traces fs l) :=
      run_eq_of_ok hst hl
    rw [hok] at hrun
    cases hrun

/-- C10, witness: a concrete fetch is `some`, and the one run that does
error does so from a corrupt offset file. -/
theorem c10_witness :
    (get_traces [[.err]] 0).isSome = true
    ∧ (FS.mk .corrupt []).offsetF = .corrupt :=
  ⟨(c10_fetch_total [[.err]] 0).1,
    (c10_fetch_total [[.err]] 0).2 ⟨.corrupt, []⟩ 0 .jsonDecode rfl⟩

end TraceWriter
